import Mathlib

/-!
Verification of the message-relay hub (`server/server.go`).

The Go byte strings of the wire protocol are modelled as `List Char`, one
character per byte (all wire literals of the program are ASCII, where the
two notions of length coincide).  Pure helpers of the source (`strings.Split`
with a one-character separator, `strings.HasPrefix`, `strings.TrimPrefix`,
`strconv.Atoi`) are embedded as Lean functions of the same shape; the
serializer (`Hub.handle`) is embedded as a step function over an explicit
hub state, and the per-connection writer goroutine (`Hub.write`) as a step
function over an explicit writer state.
-/

set_option maxRecDepth 20000

/-- Models `strings.Split(s, sep)` for a one-character separator `sep`:
the slices of `s` between consecutive separators.  As in Go, the result of
splitting the empty string is `[[]]`, never the empty list. -/
def splitOn (sep : Char) : List Char → List (List Char)
  | [] => [[]]
  | c :: rest =>
    if c = sep then [] :: splitOn sep rest
    else
      match splitOn sep rest with
      | [] => [[c]]
      | r :: rs => (c :: r) :: rs

/-- Models `strings.HasPrefix(s, p)` (arguments in the order pattern, string). -/
def startsWith : List Char → List Char → Bool
  | [], _ => true
  | _ :: _, [] => false
  | p :: ps, c :: cs => if p = c then startsWith ps cs else false

/-- Models `strings.TrimPrefix(s, p)`: drop `p` from the front of `s` when it
is a prefix of `s`, otherwise return `s` unchanged. -/
def trimLeading (p s : List Char) : List Char :=
  if startsWith p s then s.drop p.length else s

/-- Is `c` an ASCII decimal digit (Go `'0' <= c && c <= '9'`). -/
def isDig (c : Char) : Bool := decide (48 ≤ c.toNat ∧ c.toNat ≤ 57)

/-- Decimal value of a digit string, most significant digit first
(the accumulator fold that `strconv.ParseUint` performs). -/
def foldAcc (acc : Nat) (l : List Char) : Nat :=
  l.foldl (fun a c => a * 10 + (c.toNat - 48)) acc

/-- Decimal value of a digit string. -/
def decVal (l : List Char) : Nat := foldAcc 0 l

/-- `math.MaxUint64`, the overflow bound inside `strconv.ParseUint`. -/
def maxUint64 : Nat := 18446744073709551615

/-- `cutoff = maxUint64/10 + 1` from `strconv.ParseUint` for base 10. -/
def cutoffU : Nat := 1844674407370955162

/-- Outcome of the digit loop of `strconv.ParseUint`. -/
inductive PURes where
  | ok (n : Nat)
  | syntaxErr
  | rangeErr
deriving DecidableEq, Repr

/-- The digit loop of `strconv.ParseUint(s, 10, 64)`: consume digits into the
accumulator, returning a range error at the first step that would overflow
`uint64` and a syntax error at the first non-digit character. -/
def parseUintGo (acc : Nat) : List Char → PURes
  | [] => .ok acc
  | c :: rest =>
    if isDig c then
      if cutoffU ≤ acc then .rangeErr
      else if maxUint64 < acc * 10 + (c.toNat - 48) then .rangeErr
      else parseUintGo (acc * 10 + (c.toNat - 48)) rest
    else .syntaxErr

/-- `strconv.ParseUint(s, 10, 64)` on the digit part: the empty string is a
syntax error. -/
def parseUintTop (l : List Char) : PURes :=
  if l = [] then .syntaxErr else parseUintGo 0 l

/-- Sign handling of `strconv.ParseInt`: strip one leading `+` or `-` and
remember whether the number is negative. -/
def splitSign (l : List Char) : Bool × List Char :=
  match l with
  | '+' :: r => (false, r)
  | '-' :: r => (true, r)
  | _ => (false, l)

/-- Models `strconv.Atoi(s)` (= `ParseInt(s, 10, 0)` with 64-bit `int`):
returns the parsed value together with an ok flag (`err == nil`).  On a
syntax error the value is `0`; on a range error it is the clamped
`MaxInt64`/`MinInt64`, exactly as in Go. -/
def atoiGo (l : List Char) : Int × Bool :=
  match parseUintTop (splitSign l).2 with
  | .syntaxErr => (0, false)
  | .rangeErr =>
    (if (splitSign l).1 then -9223372036854775808 else 9223372036854775807, false)
  | .ok n =>
    if !(splitSign l).1 && decide (9223372036854775808 ≤ n) then
      (9223372036854775807, false)
    else if (splitSign l).1 && decide (9223372036854775808 < n) then
      (-9223372036854775808, false)
    else ((if (splitSign l).1 then -(n : Int) else (n : Int)), true)

/-- Models `getPortFromAddress`: split the address on `:`; fail unless this
yields exactly two components whose second is accepted by `Atoi`. -/
def getPortFromAddress (a : List Char) : Option Int :=
  let portStr := splitOn ':' a
  if portStr.length ≠ 2 then none
  else
    let r := atoiGo (portStr.getD 1 [])
    if r.2 then some r.1 else none

/-- Modelled from the spec: the parsing contract of §4.1 as written, which
splits the address on the LAST `:` (so an address containing a colon always
yields exactly two components, the part before and the part after the last
colon).  Stated only for comparison with `getPortFromAddress` above. -/
def getPortSpecLast (a : List Char) : Option Int :=
  if (':') ∈ a then
    let portPart := (a.reverse.takeWhile (fun c => c ≠ ':')).reverse
    let r := atoiGo portPart
    if r.2 then some r.1 else none
  else none

/-- Declarative description of the strings `strconv.Atoi` accepts: an
optional sign followed by a nonempty digit string whose value fits in a
signed 64-bit integer. -/
def isBase10Int64 (l : List Char) : Bool :=
  !(splitSign l).2.isEmpty && (splitSign l).2.all isDig &&
    (if (splitSign l).1 then decide (decVal (splitSign l).2 ≤ 9223372036854775808)
     else decide (decVal (splitSign l).2 < 9223372036854775808))

/-- The signed value of a string accepted by `strconv.Atoi`. -/
def int64Val (l : List Char) : Int :=
  if (splitSign l).1 then -(decVal (splitSign l).2 : Int)
  else (decVal (splitSign l).2 : Int)

/- ## Wire literals of the protocol -/

/-- The command word `relay` (dispatch test in `handleMessage`). -/
def relayLit : List Char := ['r', 'e', 'l', 'a', 'y']

/-- The stripped lead `relay|` of a relay message. -/
def relayBarLit : List Char := relayLit ++ ['|']

/-- The field marker `users=`. -/
def usersEqLit : List Char := ['u', 's', 'e', 'r', 's', '=']

/-- The field marker `body=`. -/
def bodyEqLit : List Char := ['b', 'o', 'd', 'y', '=']

/-- The query `id`. -/
def idLit : List Char := ['i', 'd']

/-- The query `list`. -/
def listLit : List Char := ['l', 'i', 's', 't']

/-- The hub-to-client frame lead `server: ` added by `Hub.write`. -/
def serverLit : List Char := ['s', 'e', 'r', 'v', 'e', 'r', ':', ' ']

/-- The `-> ` between the sender identity and the body of a relayed frame. -/
def arrowLit : List Char := ['-', '>', ' ']

/-- Rejection for a wrong comma-field count. -/
def errFieldsLit : List Char := "relay message should contain users and body fields".toList

/-- Rejection for a missing `users=` marker. -/
def errUsersLit : List Char := "relay message should contain users field".toList

/-- Rejection for a missing `body=` marker. -/
def errBodyLit : List Char := "relay message should contain a body field".toList

/-- Rejection of the guarded empty-destination-list branch. -/
def errUnexpectedLit : List Char := "unexpected message format".toList

/-- Rejection for too many destinations. -/
def errMaxLit : List Char := "max receivers per message exceeded".toList

/-- Rejection for an oversized body (the 39 is the ASCII apostrophe of
`can't`). -/
def errSizeLit : List Char :=
  "message body can".toList ++ [Char.ofNat 39] ++ "t exceed 1024kb".toList

/-- Reply lead for an unregistered destination token. -/
def notFoundLit : List Char := "userid not found: ".toList

/-- Reply to an unrecognized command. -/
def cmdNotRecLit : List Char := "command not recognized".toList

/-- Header of the `list` reply. -/
def usersListHeaderLit : List Char := "users list: ".toList ++ ['\n']

/- ## The protocol interpreter -/

/-- `maxBodySize` of the source. -/
def maxBodySize : Nat := 1024000

/-- `maxReceiversPerMessage` of the source. -/
def maxReceiversPerMessage : Nat := 255

/-- Destination of one enqueue performed by the serializer while handling a
message: the sending client's own outbound queue, or the outbound queue of
the registered client with the given identity. -/
inductive Target where
  | toSender
  | toClient (id : Int)
deriving DecidableEq, Repr

/-- Models `Hub.parseRelayString` as a function from the registry's key set
(`clients`), the sender's already-resolved identity and the raw message to
the list of enqueue actions the call performs, in order.  (The second call
to `getPortFromAddress` inside the source succeeds with `senderId` because
`handleMessage` already resolved the same address before dispatching here.) -/
def parseRelayString (clients : List Int) (senderId : Int) (contents : List Char) :
    List (Target × List Char) :=
  let relay := trimLeading relayBarLit contents
  let relayArgs := splitOn ',' relay
  if relayArgs.length ≠ 2 then [(Target.toSender, errFieldsLit)]
  else if ¬ startsWith usersEqLit (relayArgs.getD 0 []) then [(Target.toSender, errUsersLit)]
  else if ¬ startsWith bodyEqLit (relayArgs.getD 1 []) then [(Target.toSender, errBodyLit)]
  else
    let users := trimLeading usersEqLit (relayArgs.getD 0 [])
    let body := trimLeading bodyEqLit (relayArgs.getD 1 [])
    let destList := splitOn ';' users
    if destList.length = 0 then [(Target.toSender, errUnexpectedLit)]
    else if maxReceiversPerMessage < destList.length then [(Target.toSender, errMaxLit)]
    else if maxBodySize < body.length then [(Target.toSender, errSizeLit)]
    else
      destList.map (fun u =>
        if (atoiGo u).1 ∈ clients then
          (Target.toClient ((atoiGo u).1), (toString senderId).toList ++ arrowLit ++ body)
        else (Target.toSender, notFoundLit ++ u))

/-- Models `Hub.getAllUsersExcept` on the registry's key set: every
registered identity except `user`, in registry order (Go map iteration
order is unspecified; the model fixes the key list's order). -/
def getAllUsersExcept (clients : List Int) (user : Int) : List Int :=
  clients.filter (fun k => k ≠ user)

/-- Models `clientsToBytes`: the `list` reply, one `i) identity` line per
client after the header. -/
def clientsToBytes (ids : List Int) : List Char :=
  (ids.enum).foldl
    (fun value p =>
      value ++ ((toString p.1).toList ++ [')', ' '] ++ (toString p.2).toList ++ ['\n']))
    usersListHeaderLit

/-- Models `Hub.handleMessage` after its identity resolution succeeded with
`senderId` (resolution failure is part of the serializer model below): the
enqueue actions performed for one inbound message. -/
def handleMessage (clients : List Int) (senderId : Int) (contents : List Char) :
    List (Target × List Char) :=
  if contents = idLit then [(Target.toSender, (toString senderId).toList)]
  else if contents = listLit then
    [(Target.toSender, clientsToBytes (getAllUsersExcept clients senderId))]
  else if startsWith relayLit contents then parseRelayString clients senderId contents
  else [(Target.toSender, cmdNotRecLit)]

/-- A well-formed relay wire message `relay|users=<users>,body=<body>`. -/
def mkRelayMsg (users body : List Char) : List Char :=
  relayBarLit ++ ((usersEqLit ++ users) ++ ((',') :: (bodyEqLit ++ body)))

/- ## The serializer -/

/-- One event consumed by the `Hub.handle` loop; the client is represented
by its remote address string. -/
inductive HubEvent where
  | connect (addr : List Char)
  | disconnect (addr : List Char)
  | message (contents : List Char) (addr : List Char)
deriving DecidableEq, Repr

/-- The serializer-relevant state of the hub: the key set of the `clients`
map, the addresses whose outbound queue has been closed, and whether the
`handle` loop is still running. -/
structure HubState where
  clients : List Int
  closedQueues : List (List Char)
  alive : Bool
deriving DecidableEq, Repr

/-- Models one iteration of `Hub.handle`.  On a connect whose address fails
`getPortFromAddress`, the source sends on its own unbuffered `disconnect`
channel (which only this loop reads) and then returns: either way the loop
stops consuming events, modelled as `alive := false`; the same self-send
occurs in `handleMessage` on resolution failure.  On disconnect the source
closes the client's queue and leaves the `clients` map untouched. -/
def handleStep (s : HubState) (e : HubEvent) : HubState :=
  if s.alive = false then s
  else
    match e with
    | .connect addr =>
      match getPortFromAddress addr with
      | none => { s with alive := false }
      | some port =>
        { s with clients := if port ∈ s.clients then s.clients else s.clients ++ [port] }
    | .disconnect addr => { s with closedQueues := s.closedQueues ++ [addr] }
    | .message _ addr =>
      match getPortFromAddress addr with
      | none => { s with alive := false }
      | some _ => s

/-- The hub state after the serializer consumed the given event sequence,
starting from `InitHub`'s empty registry. -/
def handleRun (es : List HubEvent) : HubState :=
  es.foldl handleStep ⟨[], [], true⟩

/- ## The writer task -/

/-- State of one client's writer goroutine (`Hub.write`): the payloads
still queued on the client's `data` channel, whether that channel has been
closed, the frames written to the websocket so far, and whether the
goroutine has returned. -/
structure WriterState where
  pending : List (List Char)
  closed : Bool
  written : List (List Char)
  done : Bool
deriving DecidableEq, Repr

/-- Models one iteration of the `Hub.write` loop: a queued payload is
dequeued and written as one frame led by `server: `; on a closed, drained
queue the receive reports not-ok and the goroutine returns (there is no
error outcome — the write error is discarded by the source); on an open,
drained queue the receive blocks and nothing changes. -/
def writeStep (s : WriterState) : WriterState :=
  if s.done then s
  else
    match s.pending with
    | m :: rest => { s with pending := rest, written := s.written ++ [serverLit ++ m] }
    | [] => if s.closed then { s with done := true } else s

/- ## Helper lemmas on the string primitives -/

lemma startsWith_append (p r : List Char) : startsWith p (p ++ r) = true := by
  induction p with
  | nil => rfl
  | cons a ps ih => simp [startsWith, ih]

lemma trimLeading_append (p r : List Char) : trimLeading p (p ++ r) = r := by
  simp [trimLeading, startsWith_append, List.drop_left]

lemma splitOn_ne_nil (sep : Char) (l : List Char) : splitOn sep l ≠ [] := by
  cases l with
  | nil => simp [splitOn]
  | cons c t =>
    simp only [splitOn]
    by_cases h : c = sep
    · simp [h]
    · simp only [if_neg h]
      cases hs : splitOn sep t with
      | nil => simp
      | cons r rs => simp

lemma splitOn_not_mem {sep : Char} {l : List Char} (h : sep ∉ l) :
    splitOn sep l = [l] := by
  induction l with
  | nil => rfl
  | cons c t ih =>
    have hc : c ≠ sep := fun e => h (e ▸ List.mem_cons_self c t)
    have ht : sep ∉ t := fun m => h (List.mem_cons_of_mem c m)
    simp only [splitOn, if_neg hc, ih ht]

lemma splitOn_append {sep : Char} {x : List Char} (y : List Char) (h : sep ∉ x) :
    splitOn sep (x ++ sep :: y) = x :: splitOn sep y := by
  induction x with
  | nil => simp [splitOn]
  | cons a xs ih =>
    have ha : a ≠ sep := fun e => h (e ▸ List.mem_cons_self a xs)
    have hx : sep ∉ xs := fun m => h (List.mem_cons_of_mem a m)
    simp only [List.cons_append, splitOn, if_neg ha, List.append_eq, ih hx]

lemma splitOn_length_ge_two {sep : Char} {l : List Char} (h : sep ∈ l) :
    2 ≤ (splitOn sep l).length := by
  induction l with
  | nil => cases h
  | cons c t ih =>
    by_cases hc : c = sep
    · subst hc
      rw [show splitOn c (c :: t) = [] :: splitOn c t from by simp [splitOn]]
      have hnn := splitOn_ne_nil c t
      have h1 : 1 ≤ (splitOn c t).length := by
        cases hs : splitOn c t with
        | nil => exact absurd hs hnn
        | cons r rs => simp
      simp only [List.length_cons]
      omega
    · have ht : sep ∈ t := by
        rcases List.mem_cons.mp h with h1 | h1
        · exact absurd h1.symm hc
        · exact h1
      have h2 := ih ht
      simp only [splitOn, if_neg hc]
      cases hs : splitOn sep t with
      | nil => exact absurd hs (splitOn_ne_nil sep t)
      | cons r rs =>
        rw [hs] at h2
        simpa using h2

/- ## Dispatch of relay messages -/

lemma startsWith_relay_ne (contents : List Char)
    (h : startsWith relayLit contents = true) :
    contents ≠ idLit ∧ contents ≠ listLit := by
  cases contents with
  | nil => simp [startsWith, relayLit] at h
  | cons c t =>
    have hc : c = 'r' := by
      by_contra hne
      have hr : ('r' : Char) ≠ c := fun e => hne e.symm
      simp [startsWith, relayLit, if_neg hr] at h
    subst hc
    refine ⟨fun he => ?_, fun he => ?_⟩
    · rw [idLit] at he
      injection he with h1 _
      exact absurd h1 (by decide)
    · rw [listLit] at he
      injection he with h1 _
      exact absurd h1 (by decide)

/-- A message bearing the `relay` command word reaches `parseRelayString`. -/
lemma handleMessage_relay (clients : List Int) (sid : Int) (contents : List Char)
    (h : startsWith relayLit contents = true) :
    handleMessage clients sid contents = parseRelayString clients sid contents := by
  obtain ⟨h1, h2⟩ := startsWith_relay_ne contents h
  simp [handleMessage, h1, h2, h]

lemma startsWith_mkRelayMsg (users body : List Char) :
    startsWith relayLit (mkRelayMsg users body) = true := by
  rw [mkRelayMsg, relayBarLit, List.append_assoc]
  exact startsWith_append _ _

/- ## Evaluating a syntactically well-formed relay message -/

lemma comma_not_mem_usersField {users : List Char} (hu : (',') ∉ users) :
    (',') ∉ usersEqLit ++ users := by
  intro h
  rcases List.mem_append.mp h with h | h
  · revert h
    decide
  · exact hu h

lemma comma_not_mem_bodyField {body : List Char} (hb : (',') ∉ body) :
    (',') ∉ bodyEqLit ++ body := by
  intro h
  rcases List.mem_append.mp h with h | h
  · revert h
    decide
  · exact hb h

/-- Reduction of `parseRelayString` on a message whose three syntax checks
pass: only the two limit checks and the per-destination loop remain. -/
lemma relay_checks_eval (clients : List Int) (sid : Int) (users body : List Char)
    (hu : (',') ∉ users) (hb : (',') ∉ body) :
    parseRelayString clients sid (mkRelayMsg users body) =
      if maxReceiversPerMessage < (splitOn ';' users).length then
        [(Target.toSender, errMaxLit)]
      else if maxBodySize < body.length then [(Target.toSender, errSizeLit)]
      else
        (splitOn ';' users).map (fun u =>
          if (atoiGo u).1 ∈ clients then
            (Target.toClient ((atoiGo u).1), (toString sid).toList ++ arrowLit ++ body)
          else (Target.toSender, notFoundLit ++ u)) := by
  have h1 : trimLeading relayBarLit (mkRelayMsg users body)
      = (usersEqLit ++ users) ++ (',') :: (bodyEqLit ++ body) := by
    rw [mkRelayMsg]
    exact trimLeading_append _ _
  have h2 : splitOn ',' ((usersEqLit ++ users) ++ (',') :: (bodyEqLit ++ body))
      = (usersEqLit ++ users) :: [bodyEqLit ++ body] := by
    rw [splitOn_append _ (comma_not_mem_usersField hu),
      splitOn_not_mem (comma_not_mem_bodyField hb)]
  have h3 : startsWith usersEqLit (usersEqLit ++ users) = true := startsWith_append _ _
  have h4 : startsWith bodyEqLit (bodyEqLit ++ body) = true := startsWith_append _ _
  have h5 : trimLeading usersEqLit (usersEqLit ++ users) = users := trimLeading_append _ _
  have h6 : trimLeading bodyEqLit (bodyEqLit ++ body) = body := trimLeading_append _ _
  have h7 : (splitOn ';' users).length ≠ 0 := by
    intro h0
    exact splitOn_ne_nil ';' users (List.length_eq_zero.mp h0)
  simp only [parseRelayString, h1, h2, List.length_cons, List.length_singleton,
    List.getD_cons_zero, List.getD_cons_succ, h3, h4, h5, h6, if_neg h7]
  norm_num

/- ## The `list` reply -/

lemma getAllUsersExcept_not_mem (clients : List Int) (user : Int) :
    user ∉ getAllUsersExcept clients user := by
  simp [getAllUsersExcept]

lemma getAllUsersExcept_length (clients : List Int) (user : Int)
    (hn : clients.Nodup) (hm : user ∈ clients) :
    (getAllUsersExcept clients user).length = clients.length - 1 := by
  induction clients with
  | nil => cases hm
  | cons b t ih =>
    rcases List.nodup_cons.mp hn with ⟨hb, ht⟩
    by_cases hba : b = user
    · subst hba
      have hfil : t.filter (fun k => decide (k ≠ b)) = t := by
        apply List.filter_eq_self.mpr
        intro x hx
        simp only [decide_eq_true_eq]
        exact fun e => hb (e ▸ hx)
      simp only [getAllUsersExcept, List.length_cons]
      rw [List.filter_cons_of_neg (by simp), hfil]
      omega
    · have hm' : user ∈ t := by
        rcases List.mem_cons.mp hm with h | h
        · exact absurd h.symm hba
        · exact h
      have hlen : 1 ≤ t.length := List.length_pos.mpr (List.ne_nil_of_mem hm')
      have hrec := ih ht hm'
      simp only [getAllUsersExcept] at hrec ⊢
      rw [List.filter_cons_of_pos (by simp [hba])]
      simp only [List.length_cons, hrec]
      omega

/- ## The writer loop -/

lemma writeStep_closed_run (ms : List (List Char)) : ∀ w : List (List Char),
    writeStep^[ms.length + 1] ⟨ms, true, w, false⟩ =
      ⟨[], true, w ++ ms.map (fun m => serverLit ++ m), true⟩ := by
  induction ms with
  | nil =>
    intro w
    simp [writeStep]
  | cons m rest ih =>
    intro w
    have hstep : writeStep ⟨m :: rest, true, w, false⟩
        = ⟨rest, true, w ++ [serverLit ++ m], false⟩ := by
      simp [writeStep]
    rw [show (m :: rest).length + 1 = (rest.length + 1) + 1 from by simp,
      Function.iterate_succ_apply, hstep, ih (w ++ [serverLit ++ m])]
    simp

lemma writeStep_preserves_open (s : WriterState)
    (h1 : s.closed = false) (h2 : s.done = false) :
    (writeStep s).closed = false ∧ (writeStep s).done = false := by
  cases s with
  | mk pending closed written done =>
    simp only at h1 h2
    subst h1 h2
    cases pending with
    | nil => simp [writeStep]
    | cons m rest => simp [writeStep]

lemma writeStep_open_never_done (n : Nat) : ∀ s : WriterState,
    s.closed = false → s.done = false → (writeStep^[n] s).done = false := by
  induction n with
  | zero =>
    intro s h1 h2
    simpa using h2
  | succ k ih =>
    intro s h1 h2
    rw [Function.iterate_succ_apply]
    obtain ⟨h3, h4⟩ := writeStep_preserves_open s h1 h2
    exact ih (writeStep s) h3 h4

/- ## Characterizing `strconv.Atoi` -/

lemma foldAcc_cons (acc : Nat) (c : Char) (t : List Char) :
    foldAcc acc (c :: t) = foldAcc (acc * 10 + (c.toNat - 48)) t := rfl

lemma foldAcc_ge (l : List Char) : ∀ acc : Nat, acc ≤ foldAcc acc l := by
  induction l with
  | nil =>
    intro acc
    simp [foldAcc]
  | cons c t ih =>
    intro acc
    rw [foldAcc_cons]
    calc acc ≤ acc * 10 + (c.toNat - 48) := by omega
      _ ≤ foldAcc (acc * 10 + (c.toNat - 48)) t := ih _

lemma parseUintGo_ok_iff (l : List Char) : ∀ acc n : Nat, acc ≤ maxUint64 →
    (parseUintGo acc l = .ok n ↔
      (l.all isDig = true ∧ n = foldAcc acc l ∧ foldAcc acc l ≤ maxUint64)) := by
  induction l with
  | nil =>
    intro acc n hacc
    simp only [parseUintGo, foldAcc, List.foldl_nil, List.all_nil, true_and, PURes.ok.injEq]
    constructor
    · intro h
      exact ⟨h.symm, h ▸ hacc⟩
    · intro h
      exact h.1.symm
  | cons c t ih =>
    intro acc n hacc
    rw [show parseUintGo acc (c :: t) =
        (if isDig c then
          (if cutoffU ≤ acc then PURes.rangeErr
           else if maxUint64 < acc * 10 + (c.toNat - 48) then PURes.rangeErr
           else parseUintGo (acc * 10 + (c.toNat - 48)) t)
         else PURes.syntaxErr) from rfl]
    by_cases hd : isDig c = true
    · rw [if_pos hd]
      have hge : acc * 10 + (c.toNat - 48) ≤ foldAcc acc (c :: t) := by
        rw [foldAcc_cons]
        exact foldAcc_ge t _
      by_cases hcut : cutoffU ≤ acc
      · rw [if_pos hcut]
        have hbig : maxUint64 < foldAcc acc (c :: t) := by
          have h10 : cutoffU * 10 ≤ acc * 10 := by omega
          simp only [cutoffU, maxUint64] at h10 ⊢
          omega
        constructor
        · intro h
          cases h
        · rintro ⟨-, -, h3⟩
          omega
      · rw [if_neg hcut]
        by_cases hov : maxUint64 < acc * 10 + (c.toNat - 48)
        · rw [if_pos hov]
          constructor
          · intro h
            cases h
          · rintro ⟨-, -, h3⟩
            omega
        · rw [if_neg hov]
          have hacc2 : acc * 10 + (c.toNat - 48) ≤ maxUint64 := by omega
          rw [ih _ n hacc2, foldAcc_cons]
          simp [List.all_cons, hd]
    · rw [if_neg hd]
      constructor
      · intro h
        cases h
      · rintro ⟨hall, -, -⟩
        simp [List.all_cons, hd] at hall

lemma parseUintTop_ok_iff (l : List Char) (n : Nat) :
    parseUintTop l = .ok n ↔
      (l ≠ [] ∧ l.all isDig = true ∧ n = decVal l ∧ decVal l ≤ maxUint64) := by
  by_cases h : l = []
  · subst h
    simp [parseUintTop]
  · rw [parseUintTop, if_neg h, parseUintGo_ok_iff l 0 n (by simp [maxUint64])]
    simp [decVal, h]

lemma isBase10_parseUintTop {l : List Char} (hb : isBase10Int64 l = true) :
    parseUintTop (splitSign l).2 = .ok (decVal (splitSign l).2) := by
  simp only [isBase10Int64, Bool.and_eq_true] at hb
  obtain ⟨⟨h1, h2⟩, h3⟩ := hb
  have hne : (splitSign l).2 ≠ [] := by
    intro h
    rw [h] at h1
    simp at h1
  have hbound : decVal (splitSign l).2 ≤ maxUint64 := by
    cases hsp : (splitSign l).1 with
    | false =>
      rw [hsp, if_neg (by simp)] at h3
      simp only [decide_eq_true_eq] at h3
      simp only [maxUint64]
      omega
    | true =>
      rw [hsp, if_pos rfl] at h3
      simp only [decide_eq_true_eq] at h3
      simp only [maxUint64]
      omega
  exact (parseUintTop_ok_iff _ _).mpr ⟨hne, h2, rfl, hbound⟩

/-- `strconv.Atoi` succeeds exactly on the optionally signed, nonempty
base-10 digit strings whose value fits in a signed 64-bit integer, and then
returns that signed value. -/
lemma atoiGo_eq_ok_iff (l : List Char) (v : Int) :
    atoiGo l = (v, true) ↔ (isBase10Int64 l = true ∧ v = int64Val l) := by
  cases hres : parseUintTop (splitSign l).2 with
  | syntaxErr =>
    simp only [atoiGo, hres]
    constructor
    · intro h
      exact absurd (congrArg Prod.snd h) (by simp)
    · rintro ⟨hb, -⟩
      have := isBase10_parseUintTop hb
      rw [hres] at this
      cases this
  | rangeErr =>
    simp only [atoiGo, hres]
    constructor
    · intro h
      exact absurd (congrArg Prod.snd h) (by simp)
    · rintro ⟨hb, -⟩
      have := isBase10_parseUintTop hb
      rw [hres] at this
      cases this
  | ok n =>
    obtain ⟨hne, hall, hn, hmax⟩ := (parseUintTop_ok_iff _ n).mp hres
    have hnotEmpty : (splitSign l).2.isEmpty = false := by
      cases hx : (splitSign l).2 with
      | nil => exact absurd hx hne
      | cons a t => simp
    cases hsp : (splitSign l).1 with
    | false =>
      by_cases hlt : (9223372036854775808 : Nat) ≤ n
      · have hb : isBase10Int64 l = false := by
          have hd : ¬ decVal (splitSign l).2 < 9223372036854775808 := by omega
          simp [isBase10Int64, hsp, hd]
        rw [show atoiGo l = (9223372036854775807, false) from by
          simp [atoiGo, hres, hsp, hlt]]
        constructor
        · intro h
          exact absurd (congrArg Prod.snd h) (by simp)
        · rintro ⟨hb2, -⟩
          rw [hb] at hb2
          cases hb2
      · have hvl : decVal (splitSign l).2 < 9223372036854775808 := by omega
        have hbt : isBase10Int64 l = true := by
          simp [isBase10Int64, hsp, hnotEmpty, hall, hvl]
        have hiv : int64Val l = (decVal (splitSign l).2 : Int) := by
          rw [int64Val, if_neg (by simp [hsp])]
        rw [show atoiGo l = ((n : Int), true) from by
          simp [atoiGo, hres, hsp, hlt]]
        constructor
        · intro h
          injection h with h1 h2
          exact ⟨hbt, by rw [← h1, hiv, hn]⟩
        · rintro ⟨-, hv⟩
          rw [hiv, ← hn] at hv
          rw [hv]
    | true =>
      by_cases hlt : (9223372036854775808 : Nat) < n
      · have hb : isBase10Int64 l = false := by
          have hd : ¬ decVal (splitSign l).2 ≤ 9223372036854775808 := by omega
          simp [isBase10Int64, hsp, hd]
        rw [show atoiGo l = (-9223372036854775808, false) from by
          simp [atoiGo, hres, hsp, hlt]]
        constructor
        · intro h
          exact absurd (congrArg Prod.snd h) (by simp)
        · rintro ⟨hb2, -⟩
          rw [hb] at hb2
          cases hb2
      · have hvl : decVal (splitSign l).2 ≤ 9223372036854775808 := by omega
        have hbt : isBase10Int64 l = true := by
          simp [isBase10Int64, hsp, hnotEmpty, hall, hvl]
        have hiv : int64Val l = -(decVal (splitSign l).2 : Int) := by
          rw [int64Val, if_pos (by simp [hsp])]
        rw [show atoiGo l = (-(n : Int), true) from by
          simp [atoiGo, hres, hsp, hlt]]
        constructor
        · intro h
          injection h with h1 h2
          exact ⟨hbt, by rw [← h1, hiv, hn]⟩
        · rintro ⟨-, hv⟩
          rw [hiv, ← hn] at hv
          rw [hv]

lemma length_two_pair {l : List (List Char)} (h : l.length = 2) : ∃ x y, l = [x, y] := by
  cases l with
  | nil => simp at h
  | cons x t =>
    cases t with
    | nil => simp at h
    | cons y t2 =>
      cases t2 with
      | nil => exact ⟨x, y, rfl⟩
      | cons z t3 =>
        rw [List.length_cons, List.length_cons, List.length_cons] at h
        omega

lemma notFound_ne_unexpected (u : List Char) : notFoundLit ++ u ≠ errUnexpectedLit := by
  intro h
  rw [show notFoundLit = 'u' :: 's' :: ("erid not found: ".toList) from by decide] at h
  rw [show errUnexpectedLit = 'u' :: 'n' :: ("expected message format".toList) from by decide] at h
  simp only [List.cons_append] at h
  injection h with h1 h2
  injection h2 with h3 h4
  exact absurd h3 (by decide)

/- ## The claims -/

/-- C1: the code violates the removal half of the registry invariant.  After
the serializer processes `Connect` and then `Disconnect` for the same
accepted connection (remote address `a:7`, identity 7), the disconnect HAS
been processed — the client's outbound queue is closed — and yet identity 7
is still a key of the clients map: the disconnect branch of `Hub.handle`
never removes it (the cleanup gap §9 of the spec flags). -/
theorem disconnect_keeps_registry_entry :
    handleRun [HubEvent.connect ("a:7".toList), HubEvent.disconnect ("a:7".toList)]
      = ⟨[7], [("a:7".toList)], true⟩ := by decide

/-- C2: the code violates serializer resilience.  A `Connect` event whose
remote address (`localhost`, no colon) fails identity resolution makes
`Hub.handle` send on its own unbuffered `disconnect` channel and return, so
the event loop stops: a valid `Connect` arriving afterwards is never
processed (registry stays empty, `alive` is false), where the claim demands
that the loop continue. -/
theorem connect_error_stops_serializer :
    handleRun [HubEvent.connect ("localhost".toList), HubEvent.connect ("a:7".toList)]
      = ⟨[], [], false⟩ := by decide

/-- C3 counterexample: the claim says the address is split on the LAST
colon, which for `1:2:3` yields the two components `1:2` and `3` with a
numeric second component, hence a successful resolution with port 3 — but
`getPortFromAddress` splits on EVERY colon, sees three components and
fails. -/
theorem getPort_lastColon_counterexample :
    getPortSpecLast ("1:2:3".toList) = some 3
      ∧ getPortFromAddress ("1:2:3".toList) = none :=
  ⟨by decide, by decide⟩

/-- C3 (amended): `getPortFromAddress` splits the address on every `:`;
it succeeds with the numeric port iff that split yields exactly two
components and the second is an optionally signed base-10 integer fitting a
signed 64-bit int, and otherwise fails (returns a non-nil error). -/
theorem getPortFromAddress_amended (a : List Char) :
    (∀ p : Int, getPortFromAddress a = some p ↔
      ((splitOn ':' a).length = 2
        ∧ isBase10Int64 ((splitOn ':' a).getD 1 []) = true
        ∧ p = int64Val ((splitOn ':' a).getD 1 [])))
    ∧ (getPortFromAddress a = none ↔
        ¬ ((splitOn ':' a).length = 2
            ∧ isBase10Int64 ((splitOn ':' a).getD 1 []) = true)) := by
  by_cases hlen : (splitOn ':' a).length = 2
  · have hif : getPortFromAddress a =
        (if (atoiGo ((splitOn ':' a).getD 1 [])).2 = true then
          some (atoiGo ((splitOn ':' a).getD 1 [])).1 else none) := by
      simp only [getPortFromAddress, hlen, ne_eq, not_true_eq_false, if_false]
    cases hok : (atoiGo ((splitOn ':' a).getD 1 [])).2 with
    | true =>
      have heq : atoiGo ((splitOn ':' a).getD 1 [])
          = ((atoiGo ((splitOn ':' a).getD 1 [])).1, true) := by
        rw [← hok]
      obtain ⟨hb, hval⟩ := (atoiGo_eq_ok_iff _ _).mp heq
      rw [hif, if_pos hok]
      constructor
      · intro p
        constructor
        · intro hp
          injection hp with hp1
          exact ⟨hlen, hb, by rw [← hp1, hval]⟩
        · rintro ⟨-, -, hp⟩
          rw [hp, ← hval]
      · constructor
        · intro h
          cases h
        · intro h
          exact absurd ⟨hlen, hb⟩ h
    | false =>
      have hnb : isBase10Int64 ((splitOn ':' a).getD 1 []) = false := by
        cases hx : isBase10Int64 ((splitOn ':' a).getD 1 []) with
        | false => rfl
        | true =>
          have := (atoiGo_eq_ok_iff ((splitOn ':' a).getD 1 [])
            (int64Val ((splitOn ':' a).getD 1 []))).mpr ⟨hx, rfl⟩
          rw [this] at hok
          cases hok
      rw [hif, if_neg (by rw [hok]; exact Bool.false_ne_true)]
      constructor
      · intro p
        constructor
        · intro h
          cases h
        · rintro ⟨-, hb2, -⟩
          rw [hnb] at hb2
          cases hb2
      · constructor
        · rintro - ⟨-, hb2⟩
          rw [hnb] at hb2
          cases hb2
        · intro h
          rfl
  · have hnone : getPortFromAddress a = none := by
      simp only [getPortFromAddress, ne_eq, hlen, not_false_eq_true, if_true]
    constructor
    · intro p
      rw [hnone]
      constructor
      · intro h
        cases h
      · rintro ⟨h2, -⟩
        exact absurd h2 hlen
    · rw [hnone]
      constructor
      · rintro - ⟨h2, -⟩
        exact absurd h2 hlen
      · intro h
        rfl

/-- C4: for a message bearing the `relay` command word, the three syntax
checks of `parseRelayString` run in their fixed order on the `relay|`-
stripped text, and the first failing one enqueues exactly its own rejection
message, only to the sender. -/
theorem relay_validation_order (clients : List Int) (sid : Int) (contents : List Char)
    (hpre : startsWith relayLit contents = true) :
    ((splitOn ',' (trimLeading relayBarLit contents)).length ≠ 2 →
      handleMessage clients sid contents = [(Target.toSender, errFieldsLit)])
    ∧ ((splitOn ',' (trimLeading relayBarLit contents)).length = 2 →
        ¬ startsWith usersEqLit ((splitOn ',' (trimLeading relayBarLit contents)).getD 0 []) →
        handleMessage clients sid contents = [(Target.toSender, errUsersLit)])
    ∧ ((splitOn ',' (trimLeading relayBarLit contents)).length = 2 →
        startsWith usersEqLit ((splitOn ',' (trimLeading relayBarLit contents)).getD 0 []) →
        ¬ startsWith bodyEqLit ((splitOn ',' (trimLeading relayBarLit contents)).getD 1 []) →
        handleMessage clients sid contents = [(Target.toSender, errBodyLit)]) := by
  rw [handleMessage_relay clients sid contents hpre]
  refine ⟨fun h1 => ?_, fun h1 h2 => ?_, fun h1 h2 h3 => ?_⟩
  · simp [parseRelayString, h1]
  · obtain ⟨a0, a1, hargs⟩ := length_two_pair h1
    rw [hargs] at h2
    simp only [List.getD_cons_zero] at h2
    simp [parseRelayString, hargs, h2]
  · obtain ⟨a0, a1, hargs⟩ := length_two_pair h1
    rw [hargs] at h2 h3
    simp only [List.getD_cons_zero] at h2
    simp only [List.getD_cons_succ, List.getD_cons_zero] at h3
    simp [parseRelayString, hargs, h2, h3]

/-- C4 witness: the three rejections at concrete malformed relay messages
`relay|x`, `relay|a,body=b` and `relay|users=1,x=2`. -/
theorem relay_validation_order_witness :
    handleMessage [] 5 (relayBarLit ++ ['x']) = [(Target.toSender, errFieldsLit)]
    ∧ handleMessage [] 5 (relayBarLit ++ ("a,body=b".toList)) = [(Target.toSender, errUsersLit)]
    ∧ handleMessage [] 5 (relayBarLit ++ ("users=1,x=2".toList)) =
        [(Target.toSender, errBodyLit)] :=
  ⟨(relay_validation_order [] 5 (relayBarLit ++ ['x']) (by decide)).1 (by decide),
   (relay_validation_order [] 5 (relayBarLit ++ ("a,body=b".toList)) (by decide)).2.1
     (by decide) (by decide),
   (relay_validation_order [] 5 (relayBarLit ++ ("users=1,x=2".toList)) (by decide)).2.2
     (by decide) (by decide) (by decide)⟩

/-- C10: a relay body containing a comma always fails the field-count
check — the comma-split of the stripped message yields at least three
fields — so the message is rejected with the users-and-body-fields error
and nothing reaches any destination queue, regardless of the registry and
of every other constraint. -/
theorem relay_body_comma_rejected (clients : List Int) (sid : Int) (users body : List Char)
    (hu : (',') ∉ users) (hb : (',') ∈ body) :
    handleMessage clients sid (mkRelayMsg users body) = [(Target.toSender, errFieldsLit)] := by
  rw [handleMessage_relay _ _ _ (startsWith_mkRelayMsg users body)]
  have h1 : trimLeading relayBarLit (mkRelayMsg users body)
      = (usersEqLit ++ users) ++ (',') :: (bodyEqLit ++ body) := by
    rw [mkRelayMsg]
    exact trimLeading_append _ _
  have h2 : splitOn ',' ((usersEqLit ++ users) ++ (',') :: (bodyEqLit ++ body))
      = (usersEqLit ++ users) :: splitOn ',' (bodyEqLit ++ body) :=
    splitOn_append _ (comma_not_mem_usersField hu)
  have h3 : 2 ≤ (splitOn ',' (bodyEqLit ++ body)).length :=
    splitOn_length_ge_two (List.mem_append.mpr (Or.inr hb))
  have h4 : (splitOn ',' (trimLeading relayBarLit (mkRelayMsg users body))).length ≠ 2 := by
    rw [h1, h2]
    simp only [List.length_cons]
    omega
  simp [parseRelayString, h4]

/-- C10 witness: `relay|users=1,body=,` is rejected with the field-count
error even though its users field and both markers are well formed. -/
theorem relay_body_comma_rejected_witness :
    handleMessage [] 5 (mkRelayMsg (['1']) ([','])) = [(Target.toSender, errFieldsLit)] :=
  relay_body_comma_rejected [] 5 (['1']) ([',']) (by decide) (by decide)

/-- 256 destination tokens `0;0;...;0`. -/
def users256 : List Char := List.intercalate [';'] (List.replicate 256 ['0'])

/-- 255 destination tokens `0;0;...;0`. -/
def users255 : List Char := List.intercalate [';'] (List.replicate 255 ['0'])

/-- A body of exactly 1,024,001 bytes. -/
def body1024001 : List Char := List.replicate 1024001 'a'

/-- A body of exactly 1,024,000 bytes. -/
def body1024000 : List Char := List.replicate 1024000 'a'

/-- C5: the exact limit boundaries of the relay checks.  A well-formed
relay with 256 destination tokens is rejected with the max-receivers
message and nothing reaches any destination queue; one whose body has
1,024,001 bytes is rejected likewise; with 255 destinations and a body of
exactly 1,024,000 bytes both checks pass and processing proceeds to the
per-destination loop. -/
theorem relay_limit_boundaries (clients : List Int) (sid : Int) (users body : List Char)
    (hu : (',') ∉ users) (hb : (',') ∉ body) :
    ((splitOn ';' users).length = 256 →
      handleMessage clients sid (mkRelayMsg users body) = [(Target.toSender, errMaxLit)])
    ∧ ((splitOn ';' users).length ≤ 255 → body.length = 1024001 →
        handleMessage clients sid (mkRelayMsg users body) = [(Target.toSender, errSizeLit)])
    ∧ ((splitOn ';' users).length = 255 → body.length = 1024000 →
        handleMessage clients sid (mkRelayMsg users body) =
          (splitOn ';' users).map (fun u =>
            if (atoiGo u).1 ∈ clients then
              (Target.toClient ((atoiGo u).1), (toString sid).toList ++ arrowLit ++ body)
            else (Target.toSender, notFoundLit ++ u))) := by
  rw [handleMessage_relay _ _ _ (startsWith_mkRelayMsg users body),
    relay_checks_eval clients sid users body hu hb]
  refine ⟨fun h1 => ?_, fun h1 h2 => ?_, fun h1 h2 => ?_⟩
  · rw [if_pos (by simp only [maxReceiversPerMessage]; omega)]
  · rw [if_neg (by simp only [maxReceiversPerMessage]; omega),
      if_pos (by simp only [maxBodySize]; omega)]
  · rw [if_neg (by simp only [maxReceiversPerMessage]; omega),
      if_neg (by simp only [maxBodySize]; omega)]

/-- C5 witness: the boundaries at the concrete token lists `0;...;0` with
256 and 255 entries and concrete bodies of 1,024,001 and 1,024,000 `a`s. -/
theorem relay_limit_boundaries_witness :
    handleMessage [] 5 (mkRelayMsg users256 ['x']) = [(Target.toSender, errMaxLit)]
    ∧ handleMessage [] 5 (mkRelayMsg ['0'] body1024001) = [(Target.toSender, errSizeLit)]
    ∧ handleMessage [] 5 (mkRelayMsg users255 body1024000) =
        (splitOn ';' users255).map (fun u =>
          if (atoiGo u).1 ∈ ([] : List Int) then
            (Target.toClient ((atoiGo u).1),
              (toString (5 : Int)).toList ++ arrowLit ++ body1024000)
          else (Target.toSender, notFoundLit ++ u)) := by
  refine ⟨?_, ?_, ?_⟩
  · exact (relay_limit_boundaries [] 5 users256 ['x'] (by decide) (by decide)).1 (by decide)
  · exact (relay_limit_boundaries [] 5 ['0'] body1024001 (by decide)
      (by
        intro h
        simp only [body1024001] at h
        rcases List.mem_replicate.mp h with ⟨-, h2⟩
        exact absurd h2 (by decide))).2.1
      (by decide) (by rw [body1024001, List.length_replicate])
  · exact (relay_limit_boundaries [] 5 users255 body1024000 (by decide)
      (by
        intro h
        simp only [body1024000] at h
        rcases List.mem_replicate.mp h with ⟨-, h2⟩
        exact absurd h2 (by decide))).2.2
      (by decide) (by rw [body1024000, List.length_replicate])

/-- C6: when all syntax and limit checks pass, the relay loop visits the
destination tokens independently and in list order: a token whose parsed
identity is not a registry key enqueues exactly `userid not found: <token>`
on the sender's queue and processing continues, while a registered token
enqueues exactly `<senderIdentity>-> <body>` on that destination's queue;
a successful destination enqueues nothing to the sender. -/
theorem relay_delivery (clients : List Int) (sid : Int) (users body : List Char)
    (hu : (',') ∉ users) (hb : (',') ∉ body)
    (hn : (splitOn ';' users).length ≤ 255) (hs : body.length ≤ 1024000) :
    handleMessage clients sid (mkRelayMsg users body) =
      (splitOn ';' users).map (fun u =>
        if (atoiGo u).1 ∈ clients then
          (Target.toClient ((atoiGo u).1), (toString sid).toList ++ arrowLit ++ body)
        else (Target.toSender, notFoundLit ++ u)) := by
  rw [handleMessage_relay _ _ _ (startsWith_mkRelayMsg users body),
    relay_checks_eval clients sid users body hu hb,
    if_neg (by simp only [maxReceiversPerMessage]; omega),
    if_neg (by simp only [maxBodySize]; omega)]

/-- C6 witness: sender 5 relays to `7;9` with only 7 registered — 7's queue
gets `5-> hi`, the sender's queue gets `userid not found: 9`. -/
theorem relay_delivery_witness :
    handleMessage [7] 5 (mkRelayMsg (['7', ';', '9']) (['h', 'i'])) =
      (splitOn ';' (['7', ';', '9'])).map (fun u =>
        if (atoiGo u).1 ∈ ([7] : List Int) then
          (Target.toClient ((atoiGo u).1),
            (toString (5 : Int)).toList ++ arrowLit ++ (['h', 'i']))
        else (Target.toSender, notFoundLit ++ u)) :=
  relay_delivery [7] 5 (['7', ';', '9']) (['h', 'i'])
    (by decide) (by decide) (by decide) (by decide)

/-- C7: `id` replies with exactly the sender's identity in decimal; `list`
replies with the listing built from every registered identity except the
requester's own (so the requester is never listed and, for a duplicate-free
registry containing the requester, the listing has registered-count minus
one entries); any other body without the `relay` command word replies
exactly `command not recognized`. -/
theorem query_responses (clients : List Int) (sid : Int) :
    (handleMessage clients sid idLit = [(Target.toSender, (toString sid).toList)])
    ∧ (handleMessage clients sid listLit
        = [(Target.toSender, clientsToBytes (getAllUsersExcept clients sid))]
      ∧ sid ∉ getAllUsersExcept clients sid
      ∧ (clients.Nodup → sid ∈ clients →
          (getAllUsersExcept clients sid).length = clients.length - 1))
    ∧ (∀ contents : List Char, contents ≠ idLit → contents ≠ listLit →
        startsWith relayLit contents = false →
        handleMessage clients sid contents = [(Target.toSender, cmdNotRecLit)]) := by
  refine ⟨?_, ⟨?_, getAllUsersExcept_not_mem clients sid,
    getAllUsersExcept_length clients sid⟩, ?_⟩
  · rw [handleMessage, if_pos rfl]
  · rw [handleMessage, if_neg (by decide), if_pos rfl]
  · intro contents hid hlist hrel
    rw [handleMessage, if_neg hid, if_neg hlist, if_neg (by simp [hrel])]

/-- C7 witness: with registry `{3, 5}` and requester 5, `id` answers `5`,
the listing has exactly one entry, and `z` is not recognized. -/
theorem query_responses_witness :
    handleMessage [3, 5] 5 idLit = [(Target.toSender, (toString (5 : Int)).toList)]
    ∧ (getAllUsersExcept [3, 5] 5).length = ([3, 5] : List Int).length - 1
    ∧ handleMessage [3, 5] 5 (['z']) = [(Target.toSender, cmdNotRecLit)] :=
  ⟨(query_responses [3, 5] 5).1,
   (query_responses [3, 5] 5).2.1.2.2 (by decide) (by decide),
   (query_responses [3, 5] 5).2.2 (['z']) (by decide) (by decide) (by decide)⟩

/-- C8: every frame `Hub.write` puts on the wire is its dequeued payload
led by the literal `server: `, and the loop returns cleanly (it has no
error outcome) exactly when the client's queue is closed: a closed queue of
any contents is drained, written and the task is done, while on an open
queue the task never finishes, however many steps run. -/
theorem writer_contract :
    (∀ ms : List (List Char),
      writeStep^[ms.length + 1] ⟨ms, true, [], false⟩ =
        ⟨[], true, ms.map (fun m => serverLit ++ m), true⟩)
    ∧ (∀ (n : Nat) (s : WriterState), s.closed = false → s.done = false →
        (writeStep^[n] s).done = false) :=
  ⟨fun ms => by simpa using writeStep_closed_run ms [],
   fun n s h1 h2 => writeStep_open_never_done n s h1 h2⟩

/-- C8 witness: a closed queue holding `hi` is written as `server: hi` and
the task finishes; an open empty queue is still unfinished after 5 steps. -/
theorem writer_contract_witness :
    writeStep^[2] ⟨[['h', 'i']], true, [], false⟩ =
      ⟨[], true, [['h', 'i']].map (fun m => serverLit ++ m), true⟩
    ∧ (writeStep^[5] ⟨[], false, [], false⟩).done = false :=
  ⟨writer_contract.1 [['h', 'i']], writer_contract.2 5 ⟨[], false, [], false⟩ rfl rfl⟩

/-- C9: splitting any string on `;` yields at least one element, so the
guarded empty-destination-list branch of `parseRelayString` is unreachable
and no call can ever produce the `unexpected message format` reply; a relay
whose users field is the empty string instead carries the single empty
token, which parses to identity 0 and — that identity being unregistered —
is answered with `userid not found: ` through the ordinary miss path. -/
theorem empty_users_one_token (clients : List Int) (sid : Int) (body : List Char)
    (h0 : (0 : Int) ∉ clients) (hb : (',') ∉ body) (hs : body.length ≤ 1024000) :
    (∀ s : List Char, (splitOn ';' s).length ≠ 0)
    ∧ (∀ (cl : List Int) (sd : Int) (contents : List Char),
        parseRelayString cl sd contents ≠ [(Target.toSender, errUnexpectedLit)])
    ∧ parseRelayString clients sid (mkRelayMsg [] body)
        = [(Target.toSender, notFoundLit)] := by
  refine ⟨?_, ?_, ?_⟩
  · intro s h
    exact splitOn_ne_nil ';' s (List.length_eq_zero.mp h)
  · intro cl sd contents h
    rw [parseRelayString] at h
    by_cases hc1 : (splitOn ',' (trimLeading relayBarLit contents)).length ≠ 2
    · rw [if_pos hc1] at h
      exact absurd h (by decide)
    · rw [if_neg hc1] at h
      by_cases hc2 : ¬ startsWith usersEqLit
          ((splitOn ',' (trimLeading relayBarLit contents)).getD 0 [])
      · rw [if_pos hc2] at h
        exact absurd h (by decide)
      · rw [if_neg hc2] at h
        by_cases hc3 : ¬ startsWith bodyEqLit
            ((splitOn ',' (trimLeading relayBarLit contents)).getD 1 [])
        · rw [if_pos hc3] at h
          exact absurd h (by decide)
        · rw [if_neg hc3] at h
          by_cases hc4 : (splitOn ';' (trimLeading usersEqLit
              ((splitOn ',' (trimLeading relayBarLit contents)).getD 0 []))).length = 0
          · exact splitOn_ne_nil ';' _ (List.length_eq_zero.mp hc4)
          · rw [if_neg hc4] at h
            by_cases hc5 : maxReceiversPerMessage < (splitOn ';' (trimLeading usersEqLit
                ((splitOn ',' (trimLeading relayBarLit contents)).getD 0 []))).length
            · rw [if_pos hc5] at h
              exact absurd h (by decide)
            · rw [if_neg hc5] at h
              by_cases hc6 : maxBodySize < (trimLeading bodyEqLit
                  ((splitOn ',' (trimLeading relayBarLit contents)).getD 1 [])).length
              · rw [if_pos hc6] at h
                exact absurd h (by decide)
              · rw [if_neg hc6] at h
                cases hd : splitOn ';' (trimLeading usersEqLit
                    ((splitOn ',' (trimLeading relayBarLit contents)).getD 0 [])) with
                | nil => exact splitOn_ne_nil ';' _ hd
                | cons u rest =>
                  rw [hd, List.map_cons] at h
                  injection h with h1 h2
                  by_cases hm : (atoiGo u).1 ∈ cl
                  · rw [if_pos hm] at h1
                    have h3 := congrArg Prod.fst h1
                    simp at h3
                  · rw [if_neg hm] at h1
                    exact notFound_ne_unexpected u (congrArg Prod.snd h1)
  · have hmap := relay_checks_eval clients sid [] body (by simp) hb
    rw [show splitOn ';' ([] : List Char) = [[]] from rfl] at hmap
    rw [hmap, if_neg (by simp [maxReceiversPerMessage]),
      if_neg (by simp only [maxBodySize]; omega), List.map_cons, List.map_nil]
    rw [show atoiGo [] = (0, false) from rfl]
    rw [if_neg (by simpa using h0)]
    simp

/-- C9 witness: with an empty registry, `relay|users=,body=x` is answered
by exactly `userid not found: ` on the sender's queue. -/
theorem empty_users_one_token_witness :
    parseRelayString [] 5 (mkRelayMsg [] (['x'])) = [(Target.toSender, notFoundLit)] :=
  (empty_users_one_token [] 5 (['x']) (by decide) (by decide) (by decide)).2.2

example : atoiGo ("5000".toList) = (5000, true) := by decide
example : atoiGo ("-42".toList) = (-42, true) := by decide
example : atoiGo ("".toList) = (0, false) := by decide
example : atoiGo ("12a".toList) = (0, false) := by decide
example : atoiGo ("9999999999999999999999".toList) = (9223372036854775807, false) := by decide
example : getPortFromAddress ("1.2.3.4:5000".toList) = some 5000 := by decide
example : getPortFromAddress ("1:2:3".toList) = none := by decide
example : getPortSpecLast ("1:2:3".toList) = some 3 := by decide
example : splitOn ',' ("a,".toList) = [['a'], []] := by decide
example : splitOn ';' [] = [[]] := by decide
